import Mathlib

/-!
Verification of the dayspan recurrence engine (`src/Schedule.ts`) and
calendar grid (`src/Calendar.ts`).

Days are modelled at day granularity as integers (the external `Day`
capability provides a totally ordered day value with `next`/`prev` and a
stable integer day identifier; we take the identifier itself as the day).
Calendar components of a day (day-of-week, month, ...) are provided by an
abstract `DayCal` structure, mirroring the external `Day` component
accessors that the schedule's frequency checks are applied to.
-/

/-- Modelled from the spec: the external Day capability's component
accessors (day-of-week, day-of-month, ..., year), one function per
calendar component of a day, plus start/end-of-week used by the calendar
grid's fill padding. The concrete formulas live outside the repository;
only their determinism matters here. -/
structure DayCal where
  dayOfWeek : Int → Int
  dayOfMonth : Int → Int
  dayOfYear : Int → Int
  month : Int → Int
  week : Int → Int
  weekOfYear : Int → Int
  weekspanOfYear : Int → Int
  fullWeekOfYear : Int → Int
  weekOfMonth : Int → Int
  weekspanOfMonth : Int → Int
  fullWeekOfMonth : Int → Int
  year : Int → Int
  startOfWeek : Int → Int
  endOfWeek : Int → Int

/-- A compiled frequency check: a predicate over one integer calendar
component (`FrequencyCheck` in `src/Types.ts`). -/
def FrequencyCheck : Type := Int → Bool

/-- The always-true frequency check (the compiled form of an `Always`
frequency value: no constraint configured). -/
def alwaysCheck : FrequencyCheck := fun _ => true

/-- `Schedule` from `src/Schedule.ts`: optional start/end bounds, duration
(kept in milliseconds-per-unit form since the unit table lives in the
external `Constants`), time-of-day values in milliseconds, the derived
`durationInDays`, the exclusion set (a predicate over day identifiers),
and the twelve compiled frequency checks. -/
structure Schedule where
  start : Option Int
  end_ : Option Int
  duration : Int
  durationUnitMillis : Int
  times : List Int
  durationInDays : Nat
  exclude : Int → Bool
  dayOfWeek : FrequencyCheck
  dayOfMonth : FrequencyCheck
  dayOfYear : FrequencyCheck
  month : FrequencyCheck
  week : FrequencyCheck
  weekOfYear : FrequencyCheck
  weekspanOfYear : FrequencyCheck
  fullWeekOfYear : FrequencyCheck
  weekOfMonth : FrequencyCheck
  weekspanOfMonth : FrequencyCheck
  fullWeekOfMonth : FrequencyCheck
  year : FrequencyCheck

namespace Schedule

/-- `Schedule.matchesSpan`: the day is on or after `start` (when present)
and before `end` (when present). -/
def matchesSpan (s : Schedule) (day : Int) : Bool :=
  (match s.start with
   | none => true
   | some st => decide (st ≤ day)) &&
  (match s.end_ with
   | none => true
   | some en => decide (day < en))

/-- `Schedule.isExcluded`: the day's identifier is in the exclusion set. -/
def isExcluded (s : Schedule) (day : Int) : Bool :=
  s.exclude day

/-- `Schedule.isIncluded`: the day's identifier is not in the exclusion
set. -/
def isIncluded (s : Schedule) (day : Int) : Bool :=
  !s.exclude day

/-- `Schedule.matchesDay`: not excluded, within the start/end span, and
all twelve frequency checks pass on the day's components. -/
def matchesDay (c : DayCal) (s : Schedule) (day : Int) : Bool :=
  s.isIncluded day &&
  s.matchesSpan day &&
  s.dayOfWeek (c.dayOfWeek day) &&
  s.dayOfMonth (c.dayOfMonth day) &&
  s.dayOfYear (c.dayOfYear day) &&
  s.year (c.year day) &&
  s.month (c.month day) &&
  s.week (c.week day) &&
  s.weekOfYear (c.weekOfYear day) &&
  s.weekspanOfYear (c.weekspanOfYear day) &&
  s.fullWeekOfYear (c.fullWeekOfYear day) &&
  s.weekOfMonth (c.weekOfMonth day) &&
  s.weekspanOfMonth (c.weekspanOfMonth day) &&
  s.fullWeekOfMonth (c.fullWeekOfMonth day)

/-- The loop of `Schedule.findStartingDay`: `fuel` counts the remaining
iterations (the source runs `behind = durationInDays` down to `0`
inclusive, `durationInDays + 1` iterations in all), testing `matchesDay`
and stepping to the previous day between tests. -/
def findStartingDayGo (c : DayCal) (s : Schedule) : Nat → Int → Option Int
  | 0, _ => none
  | Nat.succ fuel, day =>
    if s.matchesDay c day then some day
    else findStartingDayGo c s fuel (day - 1)

/-- `Schedule.findStartingDay`: walk backward from `day` over
`durationInDays + 1` candidate days, returning the first (latest) one
that matches, or `none`. -/
def findStartingDay (c : DayCal) (s : Schedule) (day : Int) : Option Int :=
  findStartingDayGo c s (s.durationInDays + 1) day

/-- `Schedule.coversDay`: the backward search finds a starting day. -/
def coversDay (c : DayCal) (s : Schedule) (day : Int) : Bool :=
  (s.findStartingDay c day).isSome

/-- One step of the day walk: the external `Day.next`/`Day.prev`. -/
def stepDay (next : Bool) (day : Int) : Int :=
  if next then day + 1 else day - 1

/-- The loop of `Schedule.iterateDays`: `fuel` iterations remain, `day`
is the day this iteration visits, `iterated` counts matches already
emitted. Returns the list of days the callback was invoked on and the
number of days visited. A match is emitted; then the loop breaks if the
callback returned `false` or the match count reached `max`; otherwise it
steps to the adjacent day. -/
def iterateDaysGo (c : DayCal) (s : Schedule) (max : Int) (next : Bool)
    (onDay : Int → Bool) : Nat → Int → Int → (List Int × Nat)
  | 0, _, _ => ([], 0)
  | Nat.succ fuel, day, iterated =>
    if s.matchesDay c day then
      if onDay day = false then ([day], 1)
      else if max ≤ iterated + 1 then ([day], 1)
      else
        (day :: (iterateDaysGo c s max next onDay fuel (stepDay next day) (iterated + 1)).1,
         (iterateDaysGo c s max next onDay fuel (stepDay next day) (iterated + 1)).2 + 1)
    else
      ((iterateDaysGo c s max next onDay fuel (stepDay next day) iterated).1,
       (iterateDaysGo c s max next onDay fuel (stepDay next day) iterated).2 + 1)

/-- `Schedule.iterateDays`: up to `lookup` iterations; the first visited
day is `day` itself when `includeDay` is set, else the adjacent day; each
later iteration steps first. Returns the emitted days and the visit
count. -/
def iterateDays (c : DayCal) (s : Schedule) (day : Int) (max : Int)
    (next : Bool) (onDay : Int → Bool) (includeDay : Bool) (lookup : Nat) :
    List Int × Nat :=
  iterateDaysGo c s max next onDay lookup
    (if includeDay then day else stepDay next day) 0

/-- `Schedule.nextDay`: iterate forward with `max = 1` and a callback that
records the day and signals stop; the recorded day is the single emitted
day, when one exists. -/
def nextDay (c : DayCal) (s : Schedule) (day : Int) (includeDay : Bool)
    (lookAhead : Nat) : Option Int :=
  (s.iterateDays c day 1 true (fun _ => false) includeDay lookAhead).1.head?

end Schedule

/-- A concrete instance of the external Day component accessors, used to
evaluate the development on concrete inputs. -/
def simpleCal : DayCal where
  dayOfWeek d := d % 7
  dayOfMonth d := d % 31
  dayOfYear d := d % 365
  month d := (d / 31) % 12
  week d := d / 7
  weekOfYear d := (d / 7) % 53
  weekspanOfYear d := (d / 7) % 52
  fullWeekOfYear d := (d / 7) % 53
  weekOfMonth d := (d % 31) / 7
  weekspanOfMonth d := (d % 31) / 7
  fullWeekOfMonth d := (d % 31) / 7
  year d := d / 365
  startOfWeek d := d - d % 7
  endOfWeek d := d - d % 7 + 6

/-- A schedule with no bounds, no exclusions, all frequency checks
`Always`, and a given `durationInDays`. -/
def alwaysSchedule (durationInDays : Nat) : Schedule where
  start := none
  end_ := none
  duration := 1
  durationUnitMillis := 86400000
  times := []
  durationInDays := durationInDays
  exclude := fun _ => false
  dayOfWeek := alwaysCheck
  dayOfMonth := alwaysCheck
  dayOfYear := alwaysCheck
  month := alwaysCheck
  week := alwaysCheck
  weekOfYear := alwaysCheck
  weekspanOfYear := alwaysCheck
  fullWeekOfYear := alwaysCheck
  weekOfMonth := alwaysCheck
  weekspanOfMonth := alwaysCheck
  fullWeekOfMonth := alwaysCheck
  year := alwaysCheck


/-- Modelled from the spec: `Constants.MILLIS_IN_DAY` of the external
constants table. -/
def MILLIS_IN_DAY : Int := 86400000

/-- Modelled from the spec: `Constants.MAX_EVENTS_PER_DAY`, the stride of
the event id scheme `scheduleIndex * MAX_EVENTS_PER_DAY + localIndex`. -/
def MAX_EVENTS_PER_DAY : Nat := 24

/-- Modelled from the spec: the external `DaySpan` at millisecond
precision, as produced by the schedule's span generation. -/
structure TimeSpan where
  start : Int
  end_ : Int
  deriving DecidableEq

/-- `DaySpan.isPoint`: start and end coincide. -/
def TimeSpan.isPoint (sp : TimeSpan) : Bool :=
  sp.start == sp.end_

/-- The day a millisecond timestamp falls on (floor division). -/
def dayOfMillis (m : Int) : Int :=
  Int.fdiv m MILLIS_IN_DAY

/-- Modelled from the spec: the external `DaySpan.matchesDay` overlap
test — the span touches some part of the calendar day `d`. -/
def TimeSpan.matchesDayB (sp : TimeSpan) (d : Int) : Bool :=
  decide (sp.start < (d + 1) * MILLIS_IN_DAY) && decide (d * MILLIS_IN_DAY ≤ sp.end_)

namespace Schedule

/-- `Schedule.isFullDay`: no time-of-day entries. -/
def isFullDay (s : Schedule) : Bool :=
  s.times.isEmpty

/-- `Schedule.getFullSpan`: from the start of the day, advance by the
duration. -/
def getFullSpan (s : Schedule) (day : Int) : TimeSpan :=
  let st := day * MILLIS_IN_DAY
  ⟨st, st + s.duration * s.durationUnitMillis⟩

/-- `Schedule.getTimeSpan`: from the day combined with a time-of-day,
advance by the duration. -/
def getTimeSpan (s : Schedule) (day : Int) (time : Int) : TimeSpan :=
  let st := day * MILLIS_IN_DAY + time
  ⟨st, st + s.duration * s.durationUnitMillis⟩

/-- `Schedule.getSpansOver`: resolve the starting day by backward search;
then one full span if untimed, else one span per time, keeping those that
still touch the starting day. -/
def getSpansOver (c : DayCal) (s : Schedule) (day : Int) : List TimeSpan :=
  match s.findStartingDay c day with
  | none => []
  | some start =>
    if s.isFullDay then [s.getFullSpan start]
    else (s.times.map (s.getTimeSpan start)).filter (fun sp => sp.matchesDayB start)

/-- `Schedule.getSpanOver`: the full span anchored at the found starting
day, when one exists. -/
def getSpanOver (c : DayCal) (s : Schedule) (day : Int) : Option TimeSpan :=
  (s.findStartingDay c day).map s.getFullSpan

/-- `Schedule.getSpansOn`: spans anchored at `day` itself, optionally
gated by `matchesDay`. -/
def getSpansOn (c : DayCal) (s : Schedule) (day : Int) (check : Bool) :
    List TimeSpan :=
  if check && !s.matchesDay c day then []
  else if s.isFullDay then [s.getFullSpan day]
  else s.times.map (s.getTimeSpan day)

end Schedule

/-- Modelled from the spec: the external `DaySpan` at day granularity
(the calendar's nominal, filled and selection spans), with inclusive
ends. -/
structure GridSpan where
  start : Int
  end_ : Int
  deriving DecidableEq

namespace GridSpan

/-- `DaySpan.days(Op.UP)`: the number of calendar days the span covers. -/
def daysCount (sp : GridSpan) : Nat :=
  (sp.end_ - sp.start + 1).toNat

/-- `DaySpan.contains`: the day lies within the span. -/
def containsB (sp : GridSpan) (d : Int) : Bool :=
  decide (sp.start ≤ d) && decide (d ≤ sp.end_)

/-- Modelled from the spec: `DaySpan.matchesDay` for the selection span. -/
def matchesDayB (sp : GridSpan) (d : Int) : Bool :=
  sp.containsB d

/-- Modelled from the spec: `DaySpan.matchesWeek` for the selection span. -/
def matchesWeekB (c : DayCal) (sp : GridSpan) (d : Int) : Bool :=
  decide (c.week sp.start ≤ c.week d) && decide (c.week d ≤ c.week sp.end_)

/-- Modelled from the spec: `DaySpan.matchesMonth` for the selection
span. -/
def matchesMonthB (c : DayCal) (sp : GridSpan) (d : Int) : Bool :=
  decide (c.month sp.start ≤ c.month d) && decide (c.month d ≤ c.month sp.end_)

/-- Modelled from the spec: `DaySpan.matchesYear` for the selection span. -/
def matchesYearB (c : DayCal) (sp : GridSpan) (d : Int) : Bool :=
  decide (c.year sp.start ≤ c.year d) && decide (c.year d ≤ c.year sp.end_)

end GridSpan

/-- `CalendarEvent<T>` from `src/Calendar.ts`: the constructor computes
`fullDay` from the schedule, and the `starting`/`ending` flags from the
span against the cell's day. -/
structure CalendarEvent (T : Type) where
  id : Nat
  event : T
  schedule : Schedule
  time : TimeSpan
  fullDay : Bool
  starting : Bool
  ending : Bool
  row : Nat := 0
  col : Nat := 0

/-- The `CalendarEvent` constructor body (`src/Calendar.ts` lines 71-79). -/
def CalendarEvent.make {T : Type} (id : Nat) (event : T) (schedule : Schedule)
    (time : TimeSpan) (actualDay : Int) : CalendarEvent T where
  id := id
  event := event
  schedule := schedule
  time := time
  fullDay := schedule.isFullDay
  starting := time.isPoint || (dayOfMillis time.start == actualDay)
  ending := time.isPoint || (dayOfMillis (time.end_ - 1) == actualDay)

/-- `CalendarEvent.scheduleId`: recover the registration index from the
id by floor division. -/
def CalendarEvent.scheduleId {T : Type} (e : CalendarEvent T) : Nat :=
  e.id / MAX_EVENTS_PER_DAY

/-- `CalendarDay<T>`: one grid cell. Object identity is modelled by a
`uid` allocated freshly whenever the source executes `new CalendarDay`. -/
structure CalendarDay (T : Type) where
  uid : Nat
  date : Int
  currentDay : Bool := false
  currentWeek : Bool := false
  currentMonth : Bool := false
  currentYear : Bool := false
  currentOffset : Int := 0
  selectedDay : Bool := false
  selectedWeek : Bool := false
  selectedMonth : Bool := false
  selectedYear : Bool := false
  inCalendar : Bool := false
  events : List (CalendarEvent T) := []

namespace CalendarDay

/-- `new CalendarDay(date)`: default flags, no events. -/
def fresh (T : Type) (uid : Nat) (date : Int) : CalendarDay T :=
  { uid := uid, date := date }

/-- `CalendarDay.updateCurrent`: stamp the current-day/week/month/year
flags and the day offset against the reference date. -/
def updateCurrent {T : Type} (c : DayCal) (today : Int) (d : CalendarDay T) :
    CalendarDay T :=
  { d with
    currentDay := d.date == today
    currentWeek := c.week d.date == c.week today
    currentMonth := c.month d.date == c.month today
    currentYear := c.year d.date == c.year today
    currentOffset := d.date - today }

/-- `CalendarDay.updateSelected`: stamp the selected flags against the
selection span. -/
def updateSelected {T : Type} (c : DayCal) (sel : GridSpan) (d : CalendarDay T) :
    CalendarDay T :=
  { d with
    selectedDay := sel.matchesDayB d.date
    selectedWeek := sel.matchesWeekB c d.date
    selectedMonth := sel.matchesMonthB c d.date
    selectedYear := sel.matchesYearB c d.date }

/-- `CalendarDay.clearSelected`. -/
def clearSelected {T : Type} (d : CalendarDay T) : CalendarDay T :=
  { d with
    selectedDay := false
    selectedWeek := false
    selectedMonth := false
    selectedYear := false }

end CalendarDay

/-- `CalendarSchedule<T>`: one registered (schedule, payload) pair.
Reference identities of the pair object, the schedule object and the
payload object are modelled as abstract tokens. -/
structure CalendarEntry (T : Type) where
  refPair : Nat
  refSched : Nat
  refEvent : Nat
  schedule : Schedule
  event : T

/-- `Calendar<T>` from `src/Calendar.ts`: the nominal and filled spans,
configuration, selection, the cell sequence, the schedule registry, and
the fresh-identity counter for cell allocation. -/
structure Calendar (T : Type) where
  span : GridSpan
  filled : GridSpan
  length : Nat
  fill : Bool
  minimumSize : Nat
  repeatCovers : Bool
  listTimes : Bool
  eventsOutside : Bool
  selection : Option GridSpan
  days : List (CalendarDay T)
  schedules : List (CalendarEntry T)
  nextUid : Nat

namespace Calendar

variable {T : Type}

/-- The loop of `Calendar.eventsForDay`: walk the registry in order with
its index; a registration contributes events when its schedule covers
(or, with `covers` unset, literally matches) the day. -/
def eventsForDayGo (c : DayCal) (day : Int) (getTimes covers : Bool) :
    List (CalendarEntry T) → Nat → List (CalendarEvent T)
  | [], _ => []
  | entry :: rest, entryIndex =>
    let eventId : Nat := entryIndex * MAX_EVENTS_PER_DAY
    let here : List (CalendarEvent T) :=
      if (covers && entry.schedule.coversDay c day) ||
         (!covers && entry.schedule.matchesDay c day) then
        if getTimes then
          let times : List TimeSpan :=
            if covers then entry.schedule.getSpansOver c day
            else entry.schedule.getSpansOn c day false
          times.enum.map (fun it =>
            CalendarEvent.make (eventId + it.1) entry.event entry.schedule it.2 day)
        else
          match entry.schedule.getSpanOver c day with
          | some over => [CalendarEvent.make eventId entry.event entry.schedule over day]
          | none => []
      else []
    here ++ eventsForDayGo c day getTimes covers rest (entryIndex + 1)

/-- `Calendar.eventsForDay`. -/
def eventsForDay (c : DayCal) (cal : Calendar T) (day : Int)
    (getTimes covers : Bool) : List (CalendarEvent T) :=
  eventsForDayGo c day getTimes covers cal.schedules 0

/-- `Calendar.findSchedule`: the first registration whose pair, schedule
or payload reference equals the given identifier. -/
def findSchedule (cal : Calendar T) (input : Nat) : Option (CalendarEntry T) :=
  cal.schedules.find? (fun e =>
    e.refPair == input || e.refSched == input || e.refEvent == input)

/-- `Calendar.resetFilled`: pad the nominal span to whole weeks when
`fill` is set. -/
def resetFilled (c : DayCal) (cal : Calendar T) : Calendar T :=
  { cal with filled :=
      { start := if cal.fill then c.startOfWeek cal.span.start else cal.span.start
        end_ := if cal.fill then c.endOfWeek cal.span.end_ else cal.span.end_ } }

/-- The loop of `Calendar.resetDays`: position `i` consumes the old cell
at that position, reusing it when its date equals the target date of the
position, else allocating a fresh cell; every produced cell gets its
`inCalendar` flag restamped against the nominal span. Old cells past the
total are dropped (the trim). Returns the rebuilt sequence and the new
allocation counter. -/
def rebuildGo (span : GridSpan) :
    List (CalendarDay T) → Int → Nat → Nat → (List (CalendarDay T) × Nat)
  | _, _, 0, uid => ([], uid)
  | [], current, Nat.succ n, uid =>
    ({ CalendarDay.fresh T uid current with inCalendar := span.containsB current } ::
        (rebuildGo span [] (current + 1) n (uid + 1)).1,
     (rebuildGo span [] (current + 1) n (uid + 1)).2)
  | o :: os, current, Nat.succ n, uid =>
    if o.date = current then
      ({ o with inCalendar := span.containsB current } ::
          (rebuildGo span os (current + 1) n uid).1,
       (rebuildGo span os (current + 1) n uid).2)
    else
      ({ CalendarDay.fresh T uid current with inCalendar := span.containsB current } ::
          (rebuildGo span os (current + 1) n (uid + 1)).1,
       (rebuildGo span os (current + 1) n (uid + 1)).2)

/-- `Calendar.resetDays`: recompute the filled span, then rebuild the
cell sequence to `max(minimumSize, days in the filled span)` cells. -/
def resetDays (c : DayCal) (cal : Calendar T) : Calendar T :=
  let cal := cal.resetFilled c
  let total := Nat.max cal.minimumSize cal.filled.daysCount
  let r := rebuildGo cal.span cal.days cal.filled.start total cal.nextUid
  { cal with days := r.1, nextUid := r.2 }

/-- `Calendar.refreshCurrent`: restamp every cell's current flags. -/
def refreshCurrent (c : DayCal) (today : Int) (cal : Calendar T) : Calendar T :=
  { cal with days := cal.days.map (CalendarDay.updateCurrent c today) }

/-- `Calendar.refreshSelection`: restamp or clear every cell's selected
flags. -/
def refreshSelection (c : DayCal) (cal : Calendar T) : Calendar T :=
  { cal with days := cal.days.map (fun d =>
      match cal.selection with
      | some sel => d.updateSelected c sel
      | none => d.clearSelected) }

/-- `Calendar.refreshEvents`: rematerialize the event list of every cell
inside the nominal span (or of every cell, with `eventsOutside`). -/
def refreshEvents (c : DayCal) (cal : Calendar T) : Calendar T :=
  { cal with days := cal.days.map (fun d =>
      if d.inCalendar || cal.eventsOutside then
        { d with events := eventsForDay c cal d.date cal.listTimes cal.repeatCovers }
      else d) }

/-- `Calendar.refresh`: the staged rebuild pipeline. -/
def refresh (c : DayCal) (today : Int) (cal : Calendar T) : Calendar T :=
  let cal := { cal with length := cal.span.daysCount }
  (((cal.resetDays c).refreshCurrent c today).refreshSelection c).refreshEvents c

/-- `Calendar.addSchedule` (with the parse of the input pair done by the
external `Parse.calendarSchedule`): reject a duplicate unless allowed,
else append and refresh events unless deferred. -/
def addSchedule (c : DayCal) (cal : Calendar T) (parsed : CalendarEntry T)
    (allowDuplicates : Bool) (delayRefresh : Bool) : Calendar T :=
  if !allowDuplicates && (cal.findSchedule parsed.refPair).isSome then cal
  else
    let cal := { cal with schedules := cal.schedules ++ [parsed] }
    if delayRefresh then cal else cal.refreshEvents c

end Calendar

/-- The cell transformation of `refreshSelection`, as a named function:
stamp against the selection span when one is active, else clear. -/
def selStage {T : Type} (c : DayCal) (sel? : Option GridSpan)
    (d : CalendarDay T) : CalendarDay T :=
  match sel? with
  | some sel => d.updateSelected c sel
  | none => d.clearSelected

/-- The cell transformation of `refreshEvents`, as a named function:
rematerialize the event list of a cell inside the calendar (or of any
cell when events-outside is set). -/
def evStage {T : Type} (b : Bool) (ev : Int → List (CalendarEvent T))
    (d : CalendarDay T) : CalendarDay T :=
  if d.inCalendar || b then { d with events := ev d.date } else d

/-- A schedule matching every day except the excluded day 5, with a
backward search window of one day. -/
def excludedSchedule : Schedule :=
  { alwaysSchedule 1 with exclude := fun d => d == 5 }

/-- A concrete registration: reference tokens 1 (pair), 2 (schedule),
3 (payload), carrying the unconstrained schedule and payload 7. -/
def sampleEntry : CalendarEntry Int :=
  { refPair := 1, refSched := 2, refEvent := 3
    schedule := alwaysSchedule 0, event := 7 }

/-- A second registration object whose pair reference collides with
`sampleEntry`. -/
def sampleEntry2 : CalendarEntry Int :=
  { refPair := 1, refSched := 12, refEvent := 13
    schedule := alwaysSchedule 0, event := 8 }

/-- A concrete two-day calendar with `sampleEntry` registered. -/
def sampleCalendar : Calendar Int where
  span := ⟨0, 1⟩
  filled := ⟨0, 1⟩
  length := 2
  fill := false
  minimumSize := 0
  repeatCovers := true
  listTimes := true
  eventsOutside := false
  selection := none
  days := []
  schedules := [sampleEntry]
  nextUid := 0

/-- The one event `eventsForDay` materializes for `sampleCalendar` on
day 0. -/
def sampleEvent : CalendarEvent Int :=
  CalendarEvent.make 0 7 (alwaysSchedule 0) ((alwaysSchedule 0).getFullSpan 0) 0

/-! ## Helper lemmas for the recurrence engine -/

theorem findStartingDayGo_succ (c : DayCal) (s : Schedule) (fuel : Nat) (day : Int) :
    Schedule.findStartingDayGo c s (fuel + 1) day =
      if s.matchesDay c day then some day
      else Schedule.findStartingDayGo c s fuel (day - 1) := rfl

theorem iterateDaysGo_succ (c : DayCal) (s : Schedule) (max : Int) (next : Bool)
    (onDay : Int → Bool) (fuel : Nat) (day iterated : Int) :
    Schedule.iterateDaysGo c s max next onDay (fuel + 1) day iterated =
      (if s.matchesDay c day then
        if onDay day = false then ([day], 1)
        else if max ≤ iterated + 1 then ([day], 1)
        else
          (day :: (Schedule.iterateDaysGo c s max next onDay fuel
              (Schedule.stepDay next day) (iterated + 1)).1,
           (Schedule.iterateDaysGo c s max next onDay fuel
              (Schedule.stepDay next day) (iterated + 1)).2 + 1)
      else
        ((Schedule.iterateDaysGo c s max next onDay fuel
            (Schedule.stepDay next day) iterated).1,
         (Schedule.iterateDaysGo c s max next onDay fuel
            (Schedule.stepDay next day) iterated).2 + 1)) := rfl

theorem findStartingDayGo_isSome_iff (c : DayCal) (s : Schedule) :
    ∀ (fuel : Nat) (day : Int),
      ((Schedule.findStartingDayGo c s fuel day).isSome = true ↔
        ∃ S : Int, day - (fuel : Int) < S ∧ S ≤ day ∧ s.matchesDay c S = true)
  | 0, day => by
      constructor
      · intro h
        simp [Schedule.findStartingDayGo] at h
      · rintro ⟨S, h1, h2, _⟩
        exfalso
        push_cast at h1
        omega
  | Nat.succ fuel, day => by
      rw [findStartingDayGo_succ]
      by_cases h : s.matchesDay c day = true
      · rw [if_pos h]
        simp only [Option.isSome_some, true_iff]
        exact ⟨day, by push_cast; omega, le_refl day, h⟩
      · rw [if_neg h]
        rw [findStartingDayGo_isSome_iff c s fuel (day - 1)]
        constructor
        · rintro ⟨S, h1, h2, h3⟩
          exact ⟨S, by push_cast at h1 ⊢; omega, by omega, h3⟩
        · rintro ⟨S, h1, h2, h3⟩
          refine ⟨S, by push_cast at h1 ⊢; omega, ?_, h3⟩
          rcases lt_or_eq_of_le h2 with hlt | heq
          · omega
          · exact absurd (heq ▸ h3) h

theorem findStartingDayGo_eq_some (c : DayCal) (s : Schedule) :
    ∀ (fuel : Nat) (day S : Int),
      Schedule.findStartingDayGo c s fuel day = some S →
      (s.matchesDay c S = true ∧ day - (fuel : Int) < S ∧ S ≤ day ∧
        ∀ U : Int, S < U → U ≤ day → s.matchesDay c U = false)
  | 0, day, S => by
      intro h
      simp [Schedule.findStartingDayGo] at h
  | Nat.succ fuel, day, S => by
      rw [findStartingDayGo_succ]
      by_cases h : s.matchesDay c day = true
      · rw [if_pos h]
        intro hS
        obtain rfl : day = S := by injection hS
        refine ⟨h, by push_cast; omega, le_refl _, ?_⟩
        intro U h1 h2
        exfalso
        omega
      · rw [if_neg h]
        intro hS
        obtain ⟨m1, m2, m3, m4⟩ := findStartingDayGo_eq_some c s fuel (day - 1) S hS
        refine ⟨m1, by push_cast at m2 ⊢; omega, by omega, ?_⟩
        intro U h1 h2
        rcases lt_or_eq_of_le h2 with hlt | heq
        · exact m4 U h1 (by omega)
        · subst heq
          exact Bool.eq_false_iff.mpr h

theorem findStartingDayGo_eq_none_iff (c : DayCal) (s : Schedule) (fuel : Nat) (day : Int) :
    Schedule.findStartingDayGo c s fuel day = none ↔
      ∀ S : Int, day - (fuel : Int) < S → S ≤ day → s.matchesDay c S = false := by
  rw [← Option.not_isSome_iff_eq_none, findStartingDayGo_isSome_iff]
  push_neg
  constructor
  · intro h S h1 h2
    exact Bool.eq_false_iff.mpr (h S h1 h2)
  · intro h S h1 h2
    exact Bool.eq_false_iff.mp (h S h1 h2)

theorem iterateDaysGo_bound (c : DayCal) (s : Schedule) (max : Int) (next : Bool)
    (onDay : Int → Bool) :
    ∀ (fuel : Nat) (day iterated : Int),
      ((Schedule.iterateDaysGo c s max next onDay fuel day iterated).2 ≤ fuel) ∧
      ((Schedule.iterateDaysGo c s max next onDay fuel day iterated).2 = fuel ∨
        (∃ x ∈ (Schedule.iterateDaysGo c s max next onDay fuel day iterated).1,
          onDay x = false) ∨
        max ≤ iterated +
          ((Schedule.iterateDaysGo c s max next onDay fuel day iterated).1.length : Int))
  | 0, day, iterated => by
      simp [Schedule.iterateDaysGo]
  | Nat.succ fuel, day, iterated => by
      rw [iterateDaysGo_succ]
      by_cases hm : s.matchesDay c day = true
      · rw [if_pos hm]
        by_cases ho : onDay day = false
        · rw [if_pos ho]
          exact ⟨by simp, Or.inr (Or.inl ⟨day, by simp, ho⟩)⟩
        · rw [if_neg ho]
          by_cases hmax : max ≤ iterated + 1
          · rw [if_pos hmax]
            refine ⟨by simp, Or.inr (Or.inr ?_)⟩
            simp
            omega
          · rw [if_neg hmax]
            obtain ⟨ih1, ih2⟩ := iterateDaysGo_bound c s max next onDay fuel
              (Schedule.stepDay next day) (iterated + 1)
            refine ⟨by simp; omega, ?_⟩
            rcases ih2 with h | ⟨x, hx, hxf⟩ | h
            · left
              simp [h]
            · exact Or.inr (Or.inl ⟨x, by simp [hx], hxf⟩)
            · refine Or.inr (Or.inr ?_)
              simp
              omega
      · rw [if_neg hm]
        obtain ⟨ih1, ih2⟩ := iterateDaysGo_bound c s max next onDay fuel
          (Schedule.stepDay next day) iterated
        refine ⟨by simp; omega, ?_⟩
        rcases ih2 with h | ⟨x, hx, hxf⟩ | h
        · left
          simp [h]
        · exact Or.inr (Or.inl ⟨x, by simp [hx], hxf⟩)
        · exact Or.inr (Or.inr (by simpa using h))

/-! ## Claim theorems for the recurrence engine -/

/-- C2: `matchesDay(day)` is true iff the day is not excluded, lies
within `[start, end)` (an absent bound imposes no constraint), and all
twelve frequency checks pass on the day's components; in particular
`matchesDay` is false for every day outside `[start, end)` regardless of
the frequency checks. -/
theorem matchesDay_characterization (c : DayCal) (s : Schedule) (d : Int) :
    (s.matchesDay c d = true ↔
      (s.exclude d = false ∧
        (∀ st : Int, s.start = some st → st ≤ d) ∧
        (∀ en : Int, s.end_ = some en → d < en) ∧
        s.dayOfWeek (c.dayOfWeek d) = true ∧
        s.dayOfMonth (c.dayOfMonth d) = true ∧
        s.dayOfYear (c.dayOfYear d) = true ∧
        s.year (c.year d) = true ∧
        s.month (c.month d) = true ∧
        s.week (c.week d) = true ∧
        s.weekOfYear (c.weekOfYear d) = true ∧
        s.weekspanOfYear (c.weekspanOfYear d) = true ∧
        s.fullWeekOfYear (c.fullWeekOfYear d) = true ∧
        s.weekOfMonth (c.weekOfMonth d) = true ∧
        s.weekspanOfMonth (c.weekspanOfMonth d) = true ∧
        s.fullWeekOfMonth (c.fullWeekOfMonth d) = true)) ∧
    (((∃ st : Int, s.start = some st ∧ d < st) ∨
      (∃ en : Int, s.end_ = some en ∧ en ≤ d)) →
      s.matchesDay c d = false) := by
  have hspan : s.matchesSpan d = true ↔
      ((∀ st : Int, s.start = some st → st ≤ d) ∧
        (∀ en : Int, s.end_ = some en → d < en)) := by
    unfold Schedule.matchesSpan
    rcases hst : s.start with _ | st <;> rcases hen : s.end_ with _ | en <;> simp
  have hiff : s.matchesDay c d = true ↔
      (s.exclude d = false ∧
        (∀ st : Int, s.start = some st → st ≤ d) ∧
        (∀ en : Int, s.end_ = some en → d < en) ∧
        s.dayOfWeek (c.dayOfWeek d) = true ∧
        s.dayOfMonth (c.dayOfMonth d) = true ∧
        s.dayOfYear (c.dayOfYear d) = true ∧
        s.year (c.year d) = true ∧
        s.month (c.month d) = true ∧
        s.week (c.week d) = true ∧
        s.weekOfYear (c.weekOfYear d) = true ∧
        s.weekspanOfYear (c.weekspanOfYear d) = true ∧
        s.fullWeekOfYear (c.fullWeekOfYear d) = true ∧
        s.weekOfMonth (c.weekOfMonth d) = true ∧
        s.weekspanOfMonth (c.weekspanOfMonth d) = true ∧
        s.fullWeekOfMonth (c.fullWeekOfMonth d) = true) := by
    unfold Schedule.matchesDay Schedule.isIncluded
    simp only [Bool.and_eq_true, Bool.not_eq_true']
    rw [hspan]
    tauto
  refine ⟨hiff, ?_⟩
  intro h
  cases hmd : s.matchesDay c d with
  | false => rfl
  | true =>
    exfalso
    have hb := hiff.mp hmd
    rcases h with ⟨st, hst, hlt⟩ | ⟨en, hen, hle⟩
    · have := hb.2.1 st hst
      omega
    · have := hb.2.2.1 en hen
      omega

/-- C1 (amended): `coversDay(D)` is true iff there exists a day `S` with
`S ≤ D`, `D - S ≤ durationInDays` (the backward search window includes
the boundary day, not the strict `<` of the claim), and `matchesDay(S)`
true; the code does not additionally require that the span generated from
`S` extends to include `D`. -/
theorem coversDay_iff (c : DayCal) (s : Schedule) (d : Int) :
    s.coversDay c d = true ↔
      ∃ S : Int, S ≤ d ∧ d - S ≤ (s.durationInDays : Int) ∧
        s.matchesDay c S = true := by
  unfold Schedule.coversDay Schedule.findStartingDay
  rw [findStartingDayGo_isSome_iff]
  constructor
  · rintro ⟨S, h1, h2, h3⟩
    exact ⟨S, h2, by push_cast at h1 ⊢; omega, h3⟩
  · rintro ⟨S, h1, h2, h3⟩
    exact ⟨S, by push_cast; omega, h1, h3⟩

/-- C1 counterexample: for the unconstrained schedule with
`durationInDays = 0`, `coversDay(0)` is true (day 0 itself matches), but
no day `S` satisfies the claim's strict requirement `0 - S < 0`; the
claim's right-hand side is false even before its span-extension
condition is considered. -/
theorem coversDay_strict_bound_counterexample :
    (alwaysSchedule 0).coversDay simpleCal 0 = true ∧
    ¬ ∃ S : Int, S ≤ 0 ∧ (0 : Int) - S < ((alwaysSchedule 0).durationInDays : Int) ∧
        (alwaysSchedule 0).matchesDay simpleCal S = true := by
  constructor
  · decide
  · rintro ⟨S, h1, h2, _⟩
    have hd : (alwaysSchedule 0).durationInDays = 0 := rfl
    rw [hd] at h2
    omega

/-- C3 (amended): `findStartingDay(day)` searches backward at most
`durationInDays` steps and returns the first match found — the latest day
`S` with `day - durationInDays ≤ S ≤ day` and `matchesDay(S)` true (no
check that `S`'s span extends to cover `day`); it returns `day` itself
when `day` matches, and none exactly when no day in that window
matches. -/
theorem findStartingDay_latest (c : DayCal) (s : Schedule) (d : Int) :
    (∀ S : Int, s.findStartingDay c d = some S →
        (s.matchesDay c S = true ∧ d - (s.durationInDays : Int) ≤ S ∧ S ≤ d ∧
          ∀ U : Int, S < U → U ≤ d → s.matchesDay c U = false)) ∧
    (s.matchesDay c d = true → s.findStartingDay c d = some d) ∧
    (s.findStartingDay c d = none ↔
      ∀ S : Int, d - (s.durationInDays : Int) ≤ S → S ≤ d →
        s.matchesDay c S = false) := by
  refine ⟨?_, ?_, ?_⟩
  · intro S hS
    obtain ⟨m1, m2, m3, m4⟩ := findStartingDayGo_eq_some c s _ _ _ hS
    exact ⟨m1, by push_cast at m2; omega, m3, m4⟩
  · intro h
    unfold Schedule.findStartingDay
    rw [findStartingDayGo_succ, if_pos h]
  · unfold Schedule.findStartingDay
    rw [findStartingDayGo_eq_none_iff]
    constructor
    · intro h S h1 h2
      exact h S (by push_cast; omega) h2
    · intro h S h1 h2
      exact h S (by push_cast at h1; omega) h2

/-- C3 counterexample: for the unconstrained schedule with
`durationInDays = 2`, `findStartingDay(0)` returns day `0` itself, yet
day `-1` also matches, is strictly earlier, and its span of length
`durationInDays` covers day `0` (`0 - (-1) < 2`): the function does not
return the earliest qualifying start day. -/
theorem findStartingDay_not_earliest_counterexample :
    (alwaysSchedule 2).findStartingDay simpleCal 0 = some 0 ∧
    (alwaysSchedule 2).matchesDay simpleCal (-1) = true ∧
    (0 : Int) - (-1) < ((alwaysSchedule 2).durationInDays : Int) ∧
    (-1 : Int) < 0 := by
  refine ⟨by decide, by decide, ?_, by decide⟩
  have hd : (alwaysSchedule 2).durationInDays = 2 := rfl
  rw [hd]
  decide

/-- C4: `iterateDays` always terminates, visiting at most `lookup` days;
when it visits fewer, it stopped because the callback signalled stop on
an emitted day or because the emitted-match count reached `max`. -/
theorem iterateDays_bounded (c : DayCal) (s : Schedule) (day : Int) (max : Int)
    (next : Bool) (onDay : Int → Bool) (includeDay : Bool) (lookup : Nat) :
    ((s.iterateDays c day max next onDay includeDay lookup).2 ≤ lookup) ∧
    ((s.iterateDays c day max next onDay includeDay lookup).2 = lookup ∨
      (∃ x ∈ (s.iterateDays c day max next onDay includeDay lookup).1,
        onDay x = false) ∨
      max ≤ ((s.iterateDays c day max next onDay includeDay lookup).1.length : Int)) := by
  unfold Schedule.iterateDays
  obtain ⟨h1, h2⟩ := iterateDaysGo_bound c s max next onDay lookup
    (if includeDay then day else Schedule.stepDay next day) 0
  refine ⟨h1, ?_⟩
  rcases h2 with h | h | h
  · exact Or.inl h
  · exact Or.inr (Or.inl h)
  · refine Or.inr (Or.inr ?_)
    omega

theorem iterateDaysGo_first_match (c : DayCal) (s : Schedule) (next : Bool)
    (onDay : Int → Bool) (fuel : Nat) (day : Int)
    (hm : s.matchesDay c day = true) :
    Schedule.iterateDaysGo c s 1 next onDay (fuel + 1) day 0 = ([day], 1) := by
  rw [iterateDaysGo_succ, if_pos hm]
  by_cases ho : onDay day = false
  · rw [if_pos ho]
  · rw [if_neg ho, if_pos (by omega : (1 : Int) ≤ 0 + 1)]

/-- C5: for a schedule with no exclusions, no bounds and only `Always`
checks, a forward iteration from `X` with `max = 1`, `includeFrom =
false` and the default lookahead emits exactly the day `X + 1`, whatever
the callback does, and `nextDay(X)` is `X + 1`. -/
theorem always_schedule_next (c : DayCal) (s : Schedule) (X : Int)
    (hstart : s.start = none) (hend : s.end_ = none)
    (hexc : ∀ d : Int, s.exclude d = false)
    (h1 : s.dayOfWeek = alwaysCheck) (h2 : s.dayOfMonth = alwaysCheck)
    (h3 : s.dayOfYear = alwaysCheck) (h4 : s.month = alwaysCheck)
    (h5 : s.week = alwaysCheck) (h6 : s.weekOfYear = alwaysCheck)
    (h7 : s.weekspanOfYear = alwaysCheck) (h8 : s.fullWeekOfYear = alwaysCheck)
    (h9 : s.weekOfMonth = alwaysCheck) (h10 : s.weekspanOfMonth = alwaysCheck)
    (h11 : s.fullWeekOfMonth = alwaysCheck) (h12 : s.year = alwaysCheck) :
    (∀ onDay : Int → Bool,
      (s.iterateDays c X 1 true onDay false 366).1 = [X + 1]) ∧
    s.nextDay c X false 366 = some (X + 1) := by
  have hm : ∀ d : Int, s.matchesDay c d = true := by
    intro d
    unfold Schedule.matchesDay Schedule.isIncluded Schedule.matchesSpan
    rw [hstart, hend, hexc d, h1, h2, h3, h4, h5, h6, h7, h8, h9, h10, h11, h12]
    rfl
  have hkey : ∀ onDay : Int → Bool,
      s.iterateDays c X 1 true onDay false 366 = ([X + 1], 1) := by
    intro onDay
    unfold Schedule.iterateDays
    rw [show (366 : Nat) = 365 + 1 from rfl]
    have hstep : (if (false : Bool) then X else Schedule.stepDay true X) = X + 1 := rfl
    rw [hstep]
    exact iterateDaysGo_first_match c s true onDay 365 (X + 1) (hm (X + 1))
  refine ⟨fun onDay => by rw [hkey onDay], ?_⟩
  unfold Schedule.nextDay
  rw [hkey]
  rfl

/-- C5 witness: the unconstrained schedule at `X = 0`. -/
theorem always_schedule_next_witness :
    (∀ onDay : Int → Bool,
      ((alwaysSchedule 0).iterateDays simpleCal 0 1 true onDay false 366).1 = [0 + 1]) ∧
    (alwaysSchedule 0).nextDay simpleCal 0 false 366 = some (0 + 1) :=
  always_schedule_next simpleCal (alwaysSchedule 0) 0 rfl rfl (fun _ => rfl)
    rfl rfl rfl rfl rfl rfl rfl rfl rfl rfl rfl rfl

/-- C8: a day in the exclusion set never matches, even when every
frequency check passes; yet exclusion constrains only the literal
occurrence-start day: for the concrete schedule excluding day 5 (whose
day 4 matches and whose spans run two days), `coversDay(5)` is still
true. -/
theorem exclusion_only_on_start_day :
    (∀ (c : DayCal) (s : Schedule) (d : Int),
      s.exclude d = true → s.matchesDay c d = false) ∧
    excludedSchedule.exclude 5 = true ∧
    excludedSchedule.matchesDay simpleCal 5 = false ∧
    excludedSchedule.coversDay simpleCal 5 = true := by
  refine ⟨?_, by decide, by decide, by decide⟩
  intro c s d h
  unfold Schedule.matchesDay Schedule.isIncluded
  rw [h]
  rfl

/-! ## Helper lemmas for the calendar grid -/

theorem rebuildGo_zero (T : Type) (span : GridSpan) (olds : List (CalendarDay T))
    (current : Int) (uid : Nat) :
    Calendar.rebuildGo span olds current 0 uid = ([], uid) := by
  cases olds <;> rfl

theorem rebuildGo_nil_succ (T : Type) (span : GridSpan) (current : Int)
    (n : Nat) (uid : Nat) :
    Calendar.rebuildGo span ([] : List (CalendarDay T)) current (n + 1) uid =
      ({ CalendarDay.fresh T uid current with inCalendar := span.containsB current } ::
          (Calendar.rebuildGo span ([] : List (CalendarDay T)) (current + 1) n (uid + 1)).1,
       (Calendar.rebuildGo span ([] : List (CalendarDay T)) (current + 1) n (uid + 1)).2) := rfl

theorem rebuildGo_cons_succ (T : Type) (span : GridSpan) (o : CalendarDay T)
    (os : List (CalendarDay T)) (current : Int) (n : Nat) (uid : Nat) :
    Calendar.rebuildGo span (o :: os) current (n + 1) uid =
      if o.date = current then
        ({ o with inCalendar := span.containsB current } ::
            (Calendar.rebuildGo span os (current + 1) n uid).1,
         (Calendar.rebuildGo span os (current + 1) n uid).2)
      else
        ({ CalendarDay.fresh T uid current with inCalendar := span.containsB current } ::
            (Calendar.rebuildGo span os (current + 1) n (uid + 1)).1,
         (Calendar.rebuildGo span os (current + 1) n (uid + 1)).2) := rfl


theorem rebuildGo_length (T : Type) (span : GridSpan) :
    ∀ (n : Nat) (olds : List (CalendarDay T)) (current : Int) (uid : Nat),
      (Calendar.rebuildGo span olds current n uid).1.length = n
  | 0, olds, current, uid => by
      rw [rebuildGo_zero]
      rfl
  | Nat.succ n, [], current, uid => by
      rw [rebuildGo_nil_succ]
      simp [rebuildGo_length T span n [] (current + 1) (uid + 1)]
  | Nat.succ n, o :: os, current, uid => by
      rw [rebuildGo_cons_succ]
      by_cases h : o.date = current
      · rw [if_pos h]
        simp [rebuildGo_length T span n os (current + 1) uid]
      · rw [if_neg h]
        simp [rebuildGo_length T span n os (current + 1) (uid + 1)]

theorem rebuildGo_cells (T : Type) (span : GridSpan) :
    ∀ (n : Nat) (olds : List (CalendarDay T)) (current : Int) (uid : Nat)
      (i : Nat), i < n →
      ∃ cell : CalendarDay T,
        (Calendar.rebuildGo span olds current n uid).1[i]? = some cell ∧
        cell.date = current + i ∧
        cell.inCalendar = span.containsB (current + i) ∧
        (∀ o, olds[i]? = some o → o.date = current + i →
          cell = { o with inCalendar := span.containsB (current + i) }) ∧
        ((∀ o, olds[i]? = some o → o.date ≠ current + i) → uid ≤ cell.uid)
  | 0, olds, current, uid, i, hi => absurd hi (Nat.not_lt_zero i)
  | Nat.succ n, [], current, uid, 0, hi => by
      rw [rebuildGo_nil_succ]
      refine ⟨{ CalendarDay.fresh T uid current with
          inCalendar := span.containsB current }, by simp, ?_, ?_, ?_, ?_⟩
      · simp [CalendarDay.fresh]
      · simp
      · intro o ho
        simp at ho
      · intro _
        simp [CalendarDay.fresh]
  | Nat.succ n, [], current, uid, Nat.succ i, hi => by
      rw [rebuildGo_nil_succ]
      obtain ⟨cell, h1, h2, h3, h4, h5⟩ :=
        rebuildGo_cells T span n [] (current + 1) (uid + 1) i (by omega)
      have e : current + ((Nat.succ i : Nat) : Int) = current + 1 + (i : Int) := by
        push_cast
        ring
      refine ⟨cell, ?_, ?_, ?_, ?_, ?_⟩
      · simpa using h1
      · omega
      · rw [e]
        exact h3
      · intro o ho
        simp at ho
      · intro _
        have h6 : uid + 1 ≤ cell.uid := h5 (by intro o ho; simp at ho)
        omega
  | Nat.succ n, o :: os, current, uid, 0, hi => by
      rw [rebuildGo_cons_succ]
      by_cases h : o.date = current
      · rw [if_pos h]
        refine ⟨{ o with inCalendar := span.containsB current }, by simp, ?_, ?_, ?_, ?_⟩
        · simpa using h
        · simp
        · intro o2 ho2 _
          obtain rfl : o = o2 := by simpa using ho2
          have e0 : current + ((0 : Nat) : Int) = current := by simp
          rw [e0]
        · intro hno
          exfalso
          have h7 := hno o (by simp)
          simp at h7
          exact h7 h
      · rw [if_neg h]
        refine ⟨{ CalendarDay.fresh T uid current with
            inCalendar := span.containsB current }, by simp, ?_, ?_, ?_, ?_⟩
        · simp [CalendarDay.fresh]
        · simp
        · intro o2 ho2 hdate
          obtain rfl : o = o2 := by simpa using ho2
          exfalso
          apply h
          simpa using hdate
        · intro _
          simp [CalendarDay.fresh]
  | Nat.succ n, o :: os, current, uid, Nat.succ i, hi => by
      rw [rebuildGo_cons_succ]
      have e : current + ((Nat.succ i : Nat) : Int) = current + 1 + (i : Int) := by
        push_cast
        ring
      by_cases h : o.date = current
      · rw [if_pos h]
        obtain ⟨cell, h1, h2, h3, h4, h5⟩ :=
          rebuildGo_cells T span n os (current + 1) uid i (by omega)
        refine ⟨cell, ?_, ?_, ?_, ?_, ?_⟩
        · simpa using h1
        · omega
        · rw [e]
          exact h3
        · intro o2 ho2 hdate
          rw [e] at hdate ⊢
          exact h4 o2 (by simpa using ho2) hdate
        · intro hno
          refine h5 ?_
          intro o2 ho2
          have h8 := hno o2 (by simpa using ho2)
          rw [e] at h8
          exact h8
      · rw [if_neg h]
        obtain ⟨cell, h1, h2, h3, h4, h5⟩ :=
          rebuildGo_cells T span n os (current + 1) (uid + 1) i (by omega)
        refine ⟨cell, ?_, ?_, ?_, ?_, ?_⟩
        · simpa using h1
        · omega
        · rw [e]
          exact h3
        · intro o2 ho2 hdate
          rw [e] at hdate ⊢
          exact h4 o2 (by simpa using ho2) hdate
        · intro hno
          have h9 : uid + 1 ≤ cell.uid := h5 (by
            intro o2 ho2
            have h8 := hno o2 (by simpa using ho2)
            rw [e] at h8
            exact h8)
          omega

theorem set_inCalendar_self {T : Type} (d : CalendarDay T) (b : Bool)
    (h : d.inCalendar = b) : ({ d with inCalendar := b } : CalendarDay T) = d := by
  cases d
  subst h
  rfl

theorem rebuildGo_id (T : Type) (span : GridSpan) :
    ∀ (n : Nat) (olds : List (CalendarDay T)) (current : Int) (uid : Nat),
      olds.length = n →
      (∀ (i : Nat) (o : CalendarDay T), olds[i]? = some o →
        o.date = current + i ∧ o.inCalendar = span.containsB (current + i)) →
      Calendar.rebuildGo span olds current n uid = (olds, uid)
  | 0, olds, current, uid, hlen, _ => by
      rw [rebuildGo_zero]
      rw [List.length_eq_zero] at hlen
      rw [hlen]
  | Nat.succ n, [], current, uid, hlen, _ => by
      simp at hlen
  | Nat.succ n, o :: os, current, uid, hlen, hcells => by
      have h0 := hcells 0 o (by simp)
      have hd : o.date = current := by
        have := h0.1
        omega
      have hic : o.inCalendar = span.containsB current := by
        have := h0.2
        have e0 : current + ((0 : Nat) : Int) = current := by simp
        rw [e0] at this
        exact this
      rw [rebuildGo_cons_succ, if_pos hd]
      have hrec : Calendar.rebuildGo span os (current + 1) n uid = (os, uid) := by
        apply rebuildGo_id T span n os (current + 1) uid (by simpa using hlen)
        intro i o2 ho2
        have e : current + ((Nat.succ i : Nat) : Int) = current + 1 + (i : Int) := by
          push_cast
          ring
        have h2 := hcells (Nat.succ i) o2 (by simpa using ho2)
        rw [e] at h2
        exact h2
      rw [hrec, set_inCalendar_self o _ hic]

/-- C7: after `resetDays` the cell sequence has length exactly
`max(minimumSize, number of days in the padded span)`; the cell at
position `i` carries the `i`-th date of the padded span; the pre-existing
cell at position `i` is reused (kept, with only its in-calendar flag
restamped) exactly when its date already equals that target date, and
otherwise the position receives a freshly allocated cell; excess cells
past the total are trimmed. -/
theorem resetDays_cells (T : Type) (c : DayCal) (cal : Calendar T) :
    ((cal.resetDays c).days.length =
      Nat.max cal.minimumSize ((cal.resetFilled c).filled.daysCount)) ∧
    (∀ i : Nat, i < Nat.max cal.minimumSize ((cal.resetFilled c).filled.daysCount) →
      ∃ cell : CalendarDay T,
        (cal.resetDays c).days[i]? = some cell ∧
        cell.date = (cal.resetFilled c).filled.start + i ∧
        (∀ o, cal.days[i]? = some o →
            o.date = (cal.resetFilled c).filled.start + i →
          cell = { o with inCalendar :=
            cal.span.containsB ((cal.resetFilled c).filled.start + i) }) ∧
        ((∀ o, cal.days[i]? = some o →
            o.date ≠ (cal.resetFilled c).filled.start + i) →
          cal.nextUid ≤ cell.uid)) := by
  constructor
  · show (Calendar.rebuildGo cal.span cal.days ((cal.resetFilled c).filled.start)
        (Nat.max cal.minimumSize ((cal.resetFilled c).filled.daysCount))
        cal.nextUid).1.length = _
    exact rebuildGo_length T cal.span _ cal.days _ cal.nextUid
  · intro i hi
    obtain ⟨cell, h1, h2, _, h4, h5⟩ := rebuildGo_cells T cal.span
      (Nat.max cal.minimumSize ((cal.resetFilled c).filled.daysCount)) cal.days
      ((cal.resetFilled c).filled.start) cal.nextUid i hi
    exact ⟨cell, h1, h2, h4, h5⟩

/-! ## Helper lemmas for the calendar refresh pipeline -/

theorem updateCurrent_date {T : Type} (c : DayCal) (today : Int)
    (d : CalendarDay T) : (CalendarDay.updateCurrent c today d).date = d.date := rfl

theorem updateCurrent_inCalendar {T : Type} (c : DayCal) (today : Int)
    (d : CalendarDay T) :
    (CalendarDay.updateCurrent c today d).inCalendar = d.inCalendar := rfl

theorem selStage_date {T : Type} (c : DayCal) (sel? : Option GridSpan)
    (d : CalendarDay T) : (selStage c sel? d).date = d.date := by
  rcases sel? with _ | sel <;> rfl

theorem selStage_inCalendar {T : Type} (c : DayCal) (sel? : Option GridSpan)
    (d : CalendarDay T) : (selStage c sel? d).inCalendar = d.inCalendar := by
  rcases sel? with _ | sel <;> rfl

theorem evStage_date {T : Type} (b : Bool) (ev : Int → List (CalendarEvent T))
    (d : CalendarDay T) : (evStage b ev d).date = d.date := by
  unfold evStage
  split <;> rfl

theorem evStage_inCalendar {T : Type} (b : Bool) (ev : Int → List (CalendarEvent T))
    (d : CalendarDay T) : (evStage b ev d).inCalendar = d.inCalendar := by
  unfold evStage
  split <;> rfl

theorem cell_pipeline_idem (T : Type) (c : DayCal) (today : Int)
    (sel? : Option GridSpan) (b : Bool) (ev : Int → List (CalendarEvent T))
    (d : CalendarDay T) :
    evStage b ev (selStage c sel? (CalendarDay.updateCurrent c today
      (evStage b ev (selStage c sel? (CalendarDay.updateCurrent c today d))))) =
    evStage b ev (selStage c sel? (CalendarDay.updateCurrent c today d)) := by
  rcases sel? with _ | sel <;>
    by_cases h : (d.inCalendar || b) = true <;>
      simp [selStage, evStage, CalendarDay.updateCurrent,
        CalendarDay.updateSelected, CalendarDay.clearSelected, h]

theorem days_pipeline_idem (T : Type) (c : DayCal) (today : Int)
    (sel? : Option GridSpan) (b : Bool) (ev : Int → List (CalendarEvent T))
    (l : List (CalendarDay T)) :
    ((((((l.map (CalendarDay.updateCurrent c today)).map (selStage c sel?)).map
        (evStage b ev)).map (CalendarDay.updateCurrent c today)).map
        (selStage c sel?)).map (evStage b ev)) =
    ((l.map (CalendarDay.updateCurrent c today)).map (selStage c sel?)).map
      (evStage b ev) := by
  simp only [List.map_map]
  apply List.map_congr_left
  intro a _
  simp only [Function.comp]
  exact cell_pipeline_idem T c today sel? b ev a

theorem pipeline_cells (T : Type) (c : DayCal) (today : Int)
    (sel? : Option GridSpan) (b : Bool) (ev : Int → List (CalendarEvent T))
    (l : List (CalendarDay T)) (i : Nat) (o : CalendarDay T)
    (h : (((l.map (CalendarDay.updateCurrent c today)).map
        (selStage c sel?)).map (evStage b ev))[i]? = some o) :
    ∃ x, l[i]? = some x ∧ o.date = x.date ∧ o.inCalendar = x.inCalendar := by
  simp only [List.getElem?_map] at h
  rcases hx : l[i]? with _ | x
  · rw [hx] at h
    simp at h
  · rw [hx] at h
    simp only [Option.map_some'] at h
    have ho : evStage b ev (selStage c sel?
        (CalendarDay.updateCurrent c today x)) = o := by
      injection h
    refine ⟨x, rfl, ?_, ?_⟩
    · rw [← ho, evStage_date, selStage_date, updateCurrent_date]
    · rw [← ho, evStage_inCalendar, selStage_inCalendar, updateCurrent_inCalendar]

theorem refresh_unfold (T : Type) (c : DayCal) (today : Int) (cal : Calendar T) :
    Calendar.refresh c today cal =
      { span := cal.span
        filled :=
          { start := if cal.fill then c.startOfWeek cal.span.start else cal.span.start
            end_ := if cal.fill then c.endOfWeek cal.span.end_ else cal.span.end_ }
        length := cal.span.daysCount
        fill := cal.fill
        minimumSize := cal.minimumSize
        repeatCovers := cal.repeatCovers
        listTimes := cal.listTimes
        eventsOutside := cal.eventsOutside
        selection := cal.selection
        days :=
          ((((Calendar.rebuildGo cal.span cal.days
              (if cal.fill then c.startOfWeek cal.span.start else cal.span.start)
              (Nat.max cal.minimumSize
                (GridSpan.daysCount
                  { start := if cal.fill then c.startOfWeek cal.span.start else cal.span.start
                    end_ := if cal.fill then c.endOfWeek cal.span.end_ else cal.span.end_ }))
              cal.nextUid).1.map
            (CalendarDay.updateCurrent c today)).map
            (selStage c cal.selection)).map
            (evStage cal.eventsOutside
              (fun date =>
                Calendar.eventsForDayGo c date cal.listTimes cal.repeatCovers cal.schedules 0)))
        schedules := cal.schedules
        nextUid :=
          (Calendar.rebuildGo cal.span cal.days
              (if cal.fill then c.startOfWeek cal.span.start else cal.span.start)
              (Nat.max cal.minimumSize
                (GridSpan.daysCount
                  { start := if cal.fill then c.startOfWeek cal.span.start else cal.span.start
                    end_ := if cal.fill then c.endOfWeek cal.span.end_ else cal.span.end_ }))
              cal.nextUid).2 } := rfl

/-- Rebuilding the cell sequence produced by a full refresh pass changes
nothing: every cell already sits at its target date with its in-calendar
flag stamped, so `rebuildGo` keeps every cell and allocates nothing. -/
theorem rebuildGo_pipeline_fix (T : Type) (c : DayCal) (today : Int)
    (sel? : Option GridSpan) (b : Bool) (ev : Int → List (CalendarEvent T))
    (span : GridSpan) (days0 : List (CalendarDay T)) (fs : Int) (tot uid0 : Nat) :
    Calendar.rebuildGo span
      ((((Calendar.rebuildGo span days0 fs tot uid0).1.map
          (CalendarDay.updateCurrent c today)).map (selStage c sel?)).map
          (evStage b ev))
      fs tot (Calendar.rebuildGo span days0 fs tot uid0).2 =
    Prod.mk
      ((((Calendar.rebuildGo span days0 fs tot uid0).1.map
          (CalendarDay.updateCurrent c today)).map (selStage c sel?)).map
          (evStage b ev))
      (Calendar.rebuildGo span days0 fs tot uid0).2 := by
  apply rebuildGo_id
  · simp only [List.length_map]
    exact rebuildGo_length T span tot days0 fs uid0
  · intro i o ho
    obtain ⟨x, hx, hdate, hic⟩ := pipeline_cells T c today sel? b ev _ i o ho
    have hilt : i < tot := by
      by_contra hn
      push_neg at hn
      have hnone : (Calendar.rebuildGo span days0 fs tot uid0).1[i]? = none := by
        apply List.getElem?_eq_none
        rw [rebuildGo_length T span tot days0 fs uid0]
        exact hn
      rw [hnone] at hx
      exact Option.noConfusion hx
    obtain ⟨cell, hcell, hcd, hcic, _, _⟩ :=
      rebuildGo_cells T span tot days0 fs uid0 i hilt
    rw [hx] at hcell
    have hxc : x = cell := by injection hcell
    subst hxc
    exact ⟨by rw [hdate]; exact hcd, by rw [hic]; exact hcic⟩

/-- C6: running the refresh pipeline twice with the same reference date
and no intervening mutation is the identity on the calendar state: the
cell sequence is identical by value, and (identity being modelled by
each cell's allocation `uid`) every cell — all of whose dates are
unchanged — is the very cell object of the first run. -/
theorem refresh_idempotent (T : Type) (c : DayCal) (today : Int) (cal : Calendar T) :
    Calendar.refresh c today (Calendar.refresh c today cal) =
      Calendar.refresh c today cal := by
  rw [refresh_unfold T c today (Calendar.refresh c today cal),
    refresh_unfold T c today cal]
  dsimp only
  congr 1
  · rw [rebuildGo_pipeline_fix T c today cal.selection cal.eventsOutside
      (fun date =>
        Calendar.eventsForDayGo c date cal.listTimes cal.repeatCovers cal.schedules 0)
      cal.span cal.days
      (if cal.fill then c.startOfWeek cal.span.start else cal.span.start)
      (Nat.max cal.minimumSize
        (GridSpan.daysCount
          { start := if cal.fill then c.startOfWeek cal.span.start else cal.span.start
            end_ := if cal.fill then c.endOfWeek cal.span.end_ else cal.span.end_ }))
      cal.nextUid]
    exact days_pipeline_idem T c today cal.selection cal.eventsOutside _ _
  · rw [rebuildGo_pipeline_fix T c today cal.selection cal.eventsOutside
      (fun date =>
        Calendar.eventsForDayGo c date cal.listTimes cal.repeatCovers cal.schedules 0)
      cal.span cal.days
      (if cal.fill then c.startOfWeek cal.span.start else cal.span.start)
      (Nat.max cal.minimumSize
        (GridSpan.daysCount
          { start := if cal.fill then c.startOfWeek cal.span.start else cal.span.start
            end_ := if cal.fill then c.endOfWeek cal.span.end_ else cal.span.end_ }))
      cal.nextUid]

/-! ## Claim theorems for the calendar grid -/

/-- C9: when a matching registration already exists (by any of the three
reference equalities) and duplicates are not allowed, `addSchedule`
leaves the calendar — in particular the schedule registry and its
order — completely unchanged; with `allowDuplicates` the entry is
appended at the end of the registry. -/
theorem addSchedule_duplicate_rejected (T : Type) (c : DayCal) (cal : Calendar T)
    (parsed : CalendarEntry T) (delayRefresh : Bool) (e : CalendarEntry T)
    (h : cal.findSchedule parsed.refPair = some e) :
    Calendar.addSchedule c cal parsed false delayRefresh = cal ∧
    (Calendar.addSchedule c cal parsed true delayRefresh).schedules =
      cal.schedules ++ [parsed] := by
  constructor
  · simp [Calendar.addSchedule, h]
  · simp [Calendar.addSchedule, Calendar.refreshEvents, apply_ite]

/-- C9 witness: re-registering a pair whose pair token is already present
in the registry. -/
theorem addSchedule_duplicate_rejected_witness :
    Calendar.addSchedule simpleCal sampleCalendar sampleEntry2 false false =
      sampleCalendar ∧
    (Calendar.addSchedule simpleCal sampleCalendar sampleEntry2 true false).schedules =
      sampleCalendar.schedules ++ [sampleEntry2] :=
  addSchedule_duplicate_rejected Int simpleCal sampleCalendar sampleEntry2 false
    sampleEntry rfl

theorem eventsForDayGo_cons (T : Type) (c : DayCal) (day : Int)
    (getTimes covers : Bool) (entry : CalendarEntry T)
    (rest : List (CalendarEntry T)) (entryIndex : Nat) :
    Calendar.eventsForDayGo c day getTimes covers (entry :: rest) entryIndex =
      (if (covers && entry.schedule.coversDay c day) ||
          (!covers && entry.schedule.matchesDay c day) then
        if getTimes then
          ((if covers then entry.schedule.getSpansOver c day
            else entry.schedule.getSpansOn c day false).enum.map (fun it =>
            CalendarEvent.make (entryIndex * MAX_EVENTS_PER_DAY + it.1) entry.event
              entry.schedule it.2 day))
        else
          match entry.schedule.getSpanOver c day with
          | some over =>
            [CalendarEvent.make (entryIndex * MAX_EVENTS_PER_DAY) entry.event
              entry.schedule over day]
          | none => []
      else []) ++
      Calendar.eventsForDayGo c day getTimes covers rest (entryIndex + 1) := rfl

theorem eventsForDayGo_ids (T : Type) (c : DayCal) (day : Int) (covers : Bool) :
    ∀ (entries : List (CalendarEntry T)) (k0 : Nat) (e : CalendarEvent T),
      e ∈ Calendar.eventsForDayGo c day true covers entries k0 →
      ∃ (j t : Nat) (entry : CalendarEntry T),
        entries[j]? = some entry ∧
        t < (if covers then entry.schedule.getSpansOver c day
             else entry.schedule.getSpansOn c day false).length ∧
        e.id = (k0 + j) * MAX_EVENTS_PER_DAY + t
  | [], k0, e => by
      intro h
      simp [Calendar.eventsForDayGo] at h
  | entry :: rest, k0, e => by
      intro h
      rw [eventsForDayGo_cons] at h
      rcases List.mem_append.mp h with hh | ht
      · by_cases hc : ((covers && entry.schedule.coversDay c day) ||
            (!covers && entry.schedule.matchesDay c day)) = true
        · rw [if_pos hc, if_pos (rfl : (true : Bool) = true)] at hh
          obtain ⟨it, hit, he⟩ := List.mem_map.mp hh
          have hsp := List.mem_enum_iff_getElem?.mp hit
          have hlt : it.1 < (if covers then entry.schedule.getSpansOver c day
              else entry.schedule.getSpansOn c day false).length :=
            (List.getElem?_eq_some.mp hsp).1
          refine ⟨0, it.1, entry, by simp, hlt, ?_⟩
          rw [← he]
          show k0 * MAX_EVENTS_PER_DAY + it.1 = (k0 + 0) * MAX_EVENTS_PER_DAY + it.1
          simp
        · rw [if_neg hc] at hh
          simp at hh
      · obtain ⟨j, t, entry2, h1, h2, h3⟩ :=
          eventsForDayGo_ids T c day covers rest (k0 + 1) e ht
        refine ⟨j + 1, t, entry2, by simpa using h1, h2, ?_⟩
        rw [h3]
        have e1 : k0 + 1 + j = k0 + (j + 1) := by omega
        rw [e1]

/-- C10: with `listTimes`, every event `eventsForDay` materializes comes
from the registration at some index `k` and a time index `t` below that
registration's span count, with `id = k * MAX_EVENTS_PER_DAY + t`; and
whenever that registration produces at most `MAX_EVENTS_PER_DAY` spans
for the day, the event's `scheduleId` accessor (floor division of the id)
recovers exactly `k`. -/
theorem eventsForDay_id_scheme (T : Type) (c : DayCal) (cal : Calendar T)
    (day : Int) (covers : Bool) (e : CalendarEvent T)
    (he : e ∈ cal.eventsForDay c day true covers) :
    ∃ (k t : Nat) (entry : CalendarEntry T),
      cal.schedules[k]? = some entry ∧
      t < (if covers then entry.schedule.getSpansOver c day
           else entry.schedule.getSpansOn c day false).length ∧
      e.id = k * MAX_EVENTS_PER_DAY + t ∧
      ((if covers then entry.schedule.getSpansOver c day
        else entry.schedule.getSpansOn c day false).length ≤ MAX_EVENTS_PER_DAY →
        e.scheduleId = k) := by
  obtain ⟨j, t, entry, h1, h2, h3⟩ :=
    eventsForDayGo_ids T c day covers cal.schedules 0 e he
  have h3z : e.id = j * MAX_EVENTS_PER_DAY + t := by
    rw [h3]
    simp
  refine ⟨j, t, entry, h1, h2, h3z, ?_⟩
  intro hle
  have ht : t < MAX_EVENTS_PER_DAY := lt_of_lt_of_le h2 hle
  unfold CalendarEvent.scheduleId
  rw [h3z, Nat.add_comm,
    Nat.add_mul_div_right t j (by norm_num [MAX_EVENTS_PER_DAY]),
    Nat.div_eq_of_lt ht]
  simp

/-- C10 witness: the single event of `sampleCalendar` on day 0. -/
theorem eventsForDay_id_scheme_witness :
    ∃ (k t : Nat) (entry : CalendarEntry Int),
      sampleCalendar.schedules[k]? = some entry ∧
      t < (if true then entry.schedule.getSpansOver simpleCal 0
           else entry.schedule.getSpansOn simpleCal 0 false).length ∧
      sampleEvent.id = k * MAX_EVENTS_PER_DAY + t ∧
      ((if true then entry.schedule.getSpansOver simpleCal 0
        else entry.schedule.getSpansOn simpleCal 0 false).length ≤
          MAX_EVENTS_PER_DAY →
        sampleEvent.scheduleId = k) :=
  eventsForDay_id_scheme Int simpleCal sampleCalendar 0 true sampleEvent
    (by
      rw [show sampleCalendar.eventsForDay simpleCal 0 true true = [sampleEvent]
        from rfl]
      exact List.mem_singleton.mpr rfl)
